import Mathlib

/-!
Shallow embedding of the `myparse` arithmetic-expression pipeline
(`src/lexer.rs`, `src/parser.rs`, `src/interpreter.rs`) and proofs about it.

Conventions of the embedding:
* Rust `usize`/`u64` values are `Nat`; the `n as i64` cast and `i64`
  arithmetic are made explicit where a claim depends on them.
* Input text is a list of byte values (`List Nat`), as the lexer works on
  `input.as_bytes()`.
* A Rust panic (the `assert!` in `Loc::merge`, the `unwrap()` in
  `Lexer::lex_number`) is a distinct outcome, kept separate from the
  ordinary error values the code returns.
-/

namespace Myparse

/-- Source span `Loc(usize, usize)` from `lexer.rs`: a half-open byte range.
The Rust tuple fields `.0` and `.1` are named `start` and `stop`. -/
structure Loc where
  start : Nat
  stop : Nat
deriving DecidableEq, Repr

/-- The condition `max(self.0, other.0) <= min(self.1, other.1)` that
`Loc::merge` asserts before merging. -/
def Loc.mergePre (a b : Loc) : Prop :=
  max a.start b.start ≤ min a.stop b.stop

instance (a b : Loc) : Decidable (Loc.mergePre a b) := by
  unfold Loc.mergePre; infer_instance

/-- `Loc::merge` from `lexer.rs`.  The Rust code runs
`assert!(max(self.0, other.0) <= min(self.1, other.1))` and then returns
`Loc(min(self.0, other.0), max(self.1, other.1))`.  A failed assertion is a
panic, embedded as `none`. -/
def Loc.merge (a b : Loc) : Option Loc :=
  if max a.start b.start ≤ min a.stop b.stop then
    some ⟨min a.start b.start, max a.stop b.stop⟩
  else
    none

/-- `Annot<T>` from `lexer.rs`: a value paired with its source span. -/
structure Annot (α : Type) where
  value : α
  loc : Loc
deriving DecidableEq, Repr

/-- `TokenKind` from `lexer.rs`. -/
inductive TokenKind where
  | Number (n : Nat)
  | Plus
  | Minus
  | Asterisk
  | Slash
  | LParen
  | RParen
deriving DecidableEq, Repr

/-- `Token = Annot<TokenKind>`. -/
abbrev Token := Annot TokenKind

/-- `LexErrorKind` from `lexer.rs`.  `InvalidChar` carries the offending
byte (Rust casts the byte to `char`; the code point equals the byte value). -/
inductive LexErrorKind where
  | invalidChar (b : Nat)
  | eof
deriving DecidableEq, Repr

/-- `LexError = Annot<LexErrorKind>`. -/
abbrev LexError := Annot LexErrorKind

/-- Outcome of a failed lex: either a returned `LexError`, or a panic
(the `unwrap()` in `lex_number` when the digit run overflows `u64`). -/
inductive LexFail where
  | lerr (e : LexError)
  | panic
deriving DecidableEq, Repr

/-- ASCII digit test, `b"0123456789".contains(&b)` in `lex_number`. -/
def isDigitB (b : Nat) : Bool :=
  48 ≤ b && b ≤ 57

/-- Whitespace test, `b" \n\t".contains(&b)` in `skip_spaces`. -/
def isSpaceB (b : Nat) : Bool :=
  b == 32 || b == 10 || b == 9

/-- Decimal value of a digit run, as computed by `str::parse::<u64>` on a
string of ASCII digits (before the overflow check). -/
def digitsVal (ds : List Nat) : Nat :=
  ds.foldl (fun acc b => acc * 10 + (b - 48)) 0

/-- Dropping a prefix never lengthens a list, used for termination of the
scanning loop. -/
theorem dropWhile_length_le (p : Nat → Bool) (l : List Nat) :
    (l.dropWhile p).length ≤ l.length := by
  induction l with
  | nil => simp
  | cons b rest ih =>
    by_cases hb : p b
    · simpa [List.dropWhile, hb] using Nat.le_succ_of_le ih
    · simp [List.dropWhile, hb]

/-- A byte the lexer accepts at the start of a scanning step: an ASCII
digit, one of the six punctuation bytes `+ - * / ( )`, or whitespace.
Anything else makes `Lexer::lex` return `InvalidChar`. -/
def validByte (b : Nat) : Bool :=
  isDigitB b || b == 43 || b == 45 || b == 42 || b == 47 || b == 40 ||
    b == 41 || isSpaceB b

/-- The scanning loop of `Lexer::lex` from `lexer.rs`, with the cursor made
explicit: `input` is the not-yet-consumed suffix and `pos` the cursor
offset.  Match arms in source order: digit run (`lex_number`, whose
`parse().unwrap()` panics when the run's value exceeds `u64::MAX`), the six
one-byte punctuation tokens, whitespace (`skip_spaces` consumes a maximal
run), and otherwise `InvalidChar` at the one-byte span `(pos, pos+1)`. -/
def lexFrom : List Nat → Nat → Except LexFail (List Token)
  | [], _ => .ok []
  | b :: rest, pos =>
    if isDigitB b then
      let ds := b :: rest.takeWhile isDigitB
      let n := digitsVal ds
      if n < 2 ^ 64 then
        match lexFrom (rest.dropWhile isDigitB) (pos + ds.length) with
        | .error e => .error e
        | .ok toks =>
            .ok (Annot.mk (TokenKind.Number n) (Loc.mk pos (pos + ds.length)) :: toks)
      else
        .error .panic
    else if b == 43 then
      match lexFrom rest (pos + 1) with
      | .error e => .error e
      | .ok toks => .ok (Annot.mk TokenKind.Plus (Loc.mk pos (pos + 1)) :: toks)
    else if b == 45 then
      match lexFrom rest (pos + 1) with
      | .error e => .error e
      | .ok toks => .ok (Annot.mk TokenKind.Minus (Loc.mk pos (pos + 1)) :: toks)
    else if b == 42 then
      match lexFrom rest (pos + 1) with
      | .error e => .error e
      | .ok toks => .ok (Annot.mk TokenKind.Asterisk (Loc.mk pos (pos + 1)) :: toks)
    else if b == 47 then
      match lexFrom rest (pos + 1) with
      | .error e => .error e
      | .ok toks => .ok (Annot.mk TokenKind.Slash (Loc.mk pos (pos + 1)) :: toks)
    else if b == 40 then
      match lexFrom rest (pos + 1) with
      | .error e => .error e
      | .ok toks => .ok (Annot.mk TokenKind.LParen (Loc.mk pos (pos + 1)) :: toks)
    else if b == 41 then
      match lexFrom rest (pos + 1) with
      | .error e => .error e
      | .ok toks => .ok (Annot.mk TokenKind.RParen (Loc.mk pos (pos + 1)) :: toks)
    else if isSpaceB b then
      lexFrom (rest.dropWhile isSpaceB) (pos + 1 + (rest.takeWhile isSpaceB).length)
    else
      .error (.lerr (Annot.mk (LexErrorKind.invalidChar b) (Loc.mk pos (pos + 1))))
termination_by input _ => input.length
decreasing_by
  all_goals simp_wf
  all_goals exact Nat.lt_succ_of_le (dropWhile_length_le _ _)

/-- `Lexer::lex` on a whole input line: run the scanning loop from offset 0. -/
def lex (input : List Nat) : Except LexFail (List Token) :=
  lexFrom input 0

/-- `ParseError` from `parser.rs`. -/
inductive ParseError where
  | UnexpectedToken (t : Token)
  | NotExpression (t : Token)
  | NotOperator (t : Token)
  | UnclosedOpenParen (t : Token)
  | RedundantExpression (t : Token)
  | Eof
deriving DecidableEq, Repr

/-- Outcome of a failed parse: a returned `ParseError`, a panic (the
`assert!` in `Loc::merge` firing while the parser folds spans), or
exhaustion of the recursion fuel of the embedding (never reached by the
actual runs below; the Rust recursion is bounded by the token count). -/
inductive PFail where
  | perr (e : ParseError)
  | panic
  | fuelOut
deriving DecidableEq, Repr

/-- `UniOpKind` from `parser.rs`. -/
inductive UniOpKind where
  | Plus
  | Minus
deriving DecidableEq, Repr

/-- `BinOpKind` from `parser.rs`. -/
inductive BinOpKind where
  | Add
  | Sub
  | Mul
  | Div
deriving DecidableEq, Repr

/-- `UniOp = Annot<UniOpKind>`. -/
abbrev UniOp := Annot UniOpKind

/-- `BinOp = Annot<BinOpKind>`. -/
abbrev BinOp := Annot BinOpKind

/-- `Ast = Annot<AstNode>` from `parser.rs`.  The `Annot` wrapper is fused
into each constructor: every node carries its `loc` as its last field. -/
inductive Ast where
  | num (n : Nat) (loc : Loc)
  | uniop (op : UniOp) (e : Ast) (loc : Loc)
  | binop (op : BinOp) (l : Ast) (r : Ast) (loc : Loc)
deriving DecidableEq, Repr

/-- The `loc` field of an AST node (the `Annot` span in the Rust type). -/
def Ast.loc : Ast → Loc
  | .num _ loc => loc
  | .uniop _ _ loc => loc
  | .binop _ _ _ loc => loc

/-- `parse_expr3_op` from `parser.rs`: peek the next token; `+`/`-` become
the `Add`/`Sub` operator (consuming the token), no token is `Eof`, and any
other token is the `NotOperator` control signal (token not consumed, hence
the unchanged list is irrelevant to the caller, which drops it). -/
def parse_expr3_op : List Token → Except PFail (BinOp × List Token)
  | [] => .error (.perr .Eof)
  | t :: rest =>
    match t.value with
    | .Plus => .ok (Annot.mk BinOpKind.Add t.loc, rest)
    | .Minus => .ok (Annot.mk BinOpKind.Sub t.loc, rest)
    | _ => .error (.perr (.NotOperator t))

/-- `parse_expr2_op` from `parser.rs`: `*`/`/` become `Mul`/`Div`,
otherwise `Eof` / `NotOperator` exactly as in `parse_expr3_op`. -/
def parse_expr2_op : List Token → Except PFail (BinOp × List Token)
  | [] => .error (.perr .Eof)
  | t :: rest =>
    match t.value with
    | .Asterisk => .ok (Annot.mk BinOpKind.Mul t.loc, rest)
    | .Slash => .ok (Annot.mk BinOpKind.Div t.loc, rest)
    | _ => .error (.perr (.NotOperator t))

mutual

/-- `parse_expr3` from `parser.rs`: `parse_left_binop` instantiated with
`parse_expr2` as subexpression parser and `parse_expr3_op` as operator
recognizer.  The Rust loop is split off as `parse_expr3_loop`. -/
def parse_expr3 : Nat → List Token → Except PFail (Ast × List Token)
  | 0, _ => .error .fuelOut
  | fuel + 1, ts =>
    match parse_expr2 fuel ts with
    | .error e => .error e
    | .ok (e, ts1) => parse_expr3_loop fuel e ts1

/-- The `expr_loop` of `parse_left_binop` at the `+`/`-` tier: while a token
is left and it is a tier operator, consume it, parse the next `EXPR2`, and
fold with span `e.loc.merge(r.loc)` (a failed merge assertion is a panic).
An operator-recognizer error breaks the loop without consuming. -/
def parse_expr3_loop : Nat → Ast → List Token → Except PFail (Ast × List Token)
  | 0, _, _ => .error .fuelOut
  | fuel + 1, e, ts =>
    match ts with
    | [] => .ok (e, ts)
    | _ :: _ =>
      match parse_expr3_op ts with
      | .error _ => .ok (e, ts)
      | .ok (op, ts1) =>
        match parse_expr2 fuel ts1 with
        | .error err => .error err
        | .ok (r, ts2) =>
          match Loc.merge e.loc r.loc with
          | some loc => parse_expr3_loop fuel (Ast.binop op e r loc) ts2
          | none => .error .panic

/-- `parse_expr2` from `parser.rs`: `parse_left_binop` instantiated with
`parse_expr1` and `parse_expr2_op`. -/
def parse_expr2 : Nat → List Token → Except PFail (Ast × List Token)
  | 0, _ => .error .fuelOut
  | fuel + 1, ts =>
    match parse_expr1 fuel ts with
    | .error e => .error e
    | .ok (e, ts1) => parse_expr2_loop fuel e ts1

/-- The `expr_loop` of `parse_left_binop` at the `*`/`/` tier. -/
def parse_expr2_loop : Nat → Ast → List Token → Except PFail (Ast × List Token)
  | 0, _, _ => .error .fuelOut
  | fuel + 1, e, ts =>
    match ts with
    | [] => .ok (e, ts)
    | _ :: _ =>
      match parse_expr2_op ts with
      | .error _ => .ok (e, ts)
      | .ok (op, ts1) =>
        match parse_expr1 fuel ts1 with
        | .error err => .error err
        | .ok (r, ts2) =>
          match Loc.merge e.loc r.loc with
          | some loc => parse_expr2_loop fuel (Ast.binop op e r loc) ts2
          | none => .error .panic

/-- `parse_expr1` from `parser.rs`: an optional unary `+`/`-` followed by an
`ATOM`; the unary node's span is `op.loc.merge(e.loc)` (panic on a failed
assertion).  With no leading `+`/`-` (including an empty stream) it is
`parse_atom` directly. -/
def parse_expr1 : Nat → List Token → Except PFail (Ast × List Token)
  | 0, _ => .error .fuelOut
  | fuel + 1, ts =>
    match ts with
    | t :: rest =>
      match t.value with
      | .Plus =>
        match parse_atom fuel rest with
        | .error e => .error e
        | .ok (e, ts1) =>
          match Loc.merge t.loc e.loc with
          | some loc => .ok (Ast.uniop (Annot.mk UniOpKind.Plus t.loc) e loc, ts1)
          | none => .error .panic
      | .Minus =>
        match parse_atom fuel rest with
        | .error e => .error e
        | .ok (e, ts1) =>
          match Loc.merge t.loc e.loc with
          | some loc => .ok (Ast.uniop (Annot.mk UniOpKind.Minus t.loc) e loc, ts1)
          | none => .error .panic
      | _ => parse_atom fuel ts
    | [] => parse_atom fuel ts

/-- `parse_atom` from `parser.rs`: a number token becomes a `Num` node with
the token's span; `(` parses an inner `EXPR3` and requires the very next
token to be `)` (returning the inner node unchanged, its span included);
any other token is `NotExpression`, an exhausted stream is `Eof`. -/
def parse_atom : Nat → List Token → Except PFail (Ast × List Token)
  | 0, _ => .error .fuelOut
  | fuel + 1, ts =>
    match ts with
    | [] => .error (.perr .Eof)
    | t :: rest =>
      match t.value with
      | .Number n => .ok (Ast.num n t.loc, rest)
      | .LParen =>
        match parse_expr3 fuel rest with
        | .error e => .error e
        | .ok (e, ts1) =>
          match ts1 with
          | Annot.mk TokenKind.RParen _ :: ts2 => .ok (e, ts2)
          | t1 :: _ => .error (.perr (.RedundantExpression t1))
          | [] => .error (.perr (.UnclosedOpenParen t))
      | _ => .error (.perr (.NotExpression t))

end

/-- `parse_expr` from `parser.rs`: `EXPR = EXPR3`. -/
def parse_expr (fuel : Nat) (ts : List Token) : Except PFail (Ast × List Token) :=
  parse_expr3 fuel ts

/-- Fuel that is ample for the recursion of the embedded parser on a given
token list (every recursive call both consumes fuel and is reached after
consuming tokens bounded by the list length). -/
def parseFuel (ts : List Token) : Nat :=
  8 * ts.length + 8

/-- `parse` from `parser.rs`: parse one `EXPR` from the whole token stream;
if any token is left over afterwards, fail with `RedundantExpression` on
the first leftover token, otherwise return the AST. -/
def parse (ts : List Token) : Except PFail Ast :=
  match parse_expr (parseFuel ts) ts with
  | .error e => .error e
  | .ok (ret, rest) =>
    match rest with
    | t :: _ => .error (.perr (.RedundantExpression t))
    | [] => .ok ret

/-- `InterpreterErrorKind` from `interpreter.rs`. -/
inductive InterpreterErrorKind where
  | DivisionByZero
deriving DecidableEq, Repr

/-- `InterpreterError = Annot<InterpreterErrorKind>`. -/
abbrev InterpreterError := Annot InterpreterErrorKind

/-- The Rust cast `n as i64` applied to a `u64` value `n < 2^64`: values
below `2^63` are unchanged, larger ones wrap around to `n - 2^64`. -/
def u64_as_i64 (n : Nat) : Int :=
  if n < 2 ^ 63 then (n : Int) else (n : Int) - 2 ^ 64

/-- `Interpreter::eval` from `interpreter.rs`.  A `Num` leaf is its value
cast with `as i64`; unary nodes negate or pass through; binary nodes
evaluate left then right and apply the operator, where `Div` with a zero
right operand fails with `DivisionByZero` at `expr.loc` — the span the
`map_err` closure attaches is the whole node's own `loc`.  Arithmetic is
embedded as exact integer arithmetic (`i64` overflow is outside every run
considered here); division truncates toward zero as Rust `/` does. -/
def eval : Ast → Except InterpreterError Int
  | .num n _ => .ok (u64_as_i64 n)
  | .uniop op e _ =>
    match eval e with
    | .error err => .error err
    | .ok v =>
      match op.value with
      | .Plus => .ok v
      | .Minus => .ok (-v)
  | .binop op l r loc =>
    match eval l with
    | .error err => .error err
    | .ok lv =>
      match eval r with
      | .error err => .error err
      | .ok rv =>
        match op.value with
        | .Add => .ok (lv + rv)
        | .Sub => .ok (lv - rv)
        | .Mul => .ok (lv * rv)
        | .Div =>
          if rv = 0 then .error (Annot.mk InterpreterErrorKind.DivisionByZero loc)
          else .ok (Int.tdiv lv rv)

/-! Theorems about the embedded pipeline. -/

/-- Claim C1: the claim says the `assert!` in `Loc::merge` never fires
during parsing, in particular when folding a `BinaryExpr` from the left and
right operand spans.  The code contradicts this (and its own
`test_parser`): for the token sequence of `"1+2"` the parser merges the
operand spans `(0,1)` and `(2,3)`, which do not overlap or touch, so the
assertion fires and the parse panics. -/
theorem parse_one_plus_two_panics :
    parse [Annot.mk (TokenKind.Number 1) (Loc.mk 0 1),
      Annot.mk TokenKind.Plus (Loc.mk 1 2),
      Annot.mk (TokenKind.Number 2) (Loc.mk 2 3)] = .error .panic ∧
    ¬ Loc.mergePre (Loc.mk 0 1) (Loc.mk 2 3) :=
  ⟨rfl, by decide⟩

/-- Claim C2, counterexample: evaluating the `Div` AST of `"1/0"` (operator
span `(1,2)`, operand spans `(0,1)` and `(2,3)`, node span `(0,3)`) yields
`DivisionByZero` at the node span `(0,3)`, not at the operator span `(1,2)`
the claim states. -/
theorem eval_div_zero_span_is_node_span :
    eval (Ast.binop (Annot.mk BinOpKind.Div (Loc.mk 1 2))
        (Ast.num 1 (Loc.mk 0 1)) (Ast.num 0 (Loc.mk 2 3)) (Loc.mk 0 3)) =
      .error (Annot.mk InterpreterErrorKind.DivisionByZero (Loc.mk 0 3)) ∧
    Loc.mk 0 3 ≠ Loc.mk 1 2 :=
  ⟨rfl, by decide⟩

/-- Claim C2, amended: when the evaluator fails on a division whose right
operand evaluates to zero, the `DivisionByZero` error carries the whole
division node's span (the `expr.loc` the `map_err` closure attaches), not
the operator token's span. -/
theorem eval_div_zero_carries_node_span (op_loc : Loc) (l r : Ast) (loc : Loc)
    (lv : Int) (hl : eval l = .ok lv) (hr : eval r = .ok 0) :
    eval (Ast.binop (Annot.mk BinOpKind.Div op_loc) l r loc) =
      .error (Annot.mk InterpreterErrorKind.DivisionByZero loc) := by
  simp [eval, hl, hr]

/-- Witness for `eval_div_zero_carries_node_span` at the `Div` AST of
`"1/0"`. -/
theorem eval_div_zero_carries_node_span_witness :
    eval (Ast.binop (Annot.mk BinOpKind.Div (Loc.mk 1 2))
        (Ast.num 1 (Loc.mk 0 1)) (Ast.num 0 (Loc.mk 2 3)) (Loc.mk 4 9)) =
      .error (Annot.mk InterpreterErrorKind.DivisionByZero (Loc.mk 4 9)) :=
  eval_div_zero_carries_node_span (Loc.mk 1 2) (Ast.num 1 (Loc.mk 0 1))
    (Ast.num 0 (Loc.mk 2 3)) (Loc.mk 4 9) 1 rfl rfl

/-- Claim C4: the claim (and the repository's own `test_parser`) says the
8-token sequence lexed from `"1 + 2 * 3 - -10"` parses to
`Sub(Add(1, Mul(2,3)), UnaryMinus(10))` with outer span `(0,15)`.  The code
instead panics: folding `Mul(2,3)` merges the operand spans `(4,5)` and
`(8,9)`, which violates the merge assertion. -/
theorem parse_example_eight_tokens_panics :
    parse [Annot.mk (TokenKind.Number 1) (Loc.mk 0 1),
      Annot.mk TokenKind.Plus (Loc.mk 2 3),
      Annot.mk (TokenKind.Number 2) (Loc.mk 4 5),
      Annot.mk TokenKind.Asterisk (Loc.mk 6 7),
      Annot.mk (TokenKind.Number 3) (Loc.mk 8 9),
      Annot.mk TokenKind.Minus (Loc.mk 10 11),
      Annot.mk TokenKind.Minus (Loc.mk 12 13),
      Annot.mk (TokenKind.Number 10) (Loc.mk 13 15)] = .error .panic :=
  rfl

/-- Claim C6: the claim says `"1 + 2)"` fails with `RedundantExpression`
pointing at `)`.  The code never reaches the leftover-token check: folding
`1 + 2` merges the operand spans `(0,1)` and `(4,5)`, the merge assertion
fires, and the parse panics. -/
theorem parse_redundant_example_panics :
    parse [Annot.mk (TokenKind.Number 1) (Loc.mk 0 1),
      Annot.mk TokenKind.Plus (Loc.mk 2 3),
      Annot.mk (TokenKind.Number 2) (Loc.mk 4 5),
      Annot.mk TokenKind.RParen (Loc.mk 5 6)] = .error .panic :=
  rfl

/-- Claim C3, counterexample: the claim says a successful parse's root span
equals the full input span.  For the valid input `"(3)"` (bytes
`[40, 51, 41]`, full span `(0,3)`) lexing and parsing succeed, but
`parse_atom` returns the inner expression unchanged, so the root span is
the number's own span `(1,2)`. -/
theorem parse_paren_three_root_span :
    lex [40, 51, 41] = .ok [Annot.mk TokenKind.LParen (Loc.mk 0 1),
      Annot.mk (TokenKind.Number 3) (Loc.mk 1 2),
      Annot.mk TokenKind.RParen (Loc.mk 2 3)] ∧
    parse [Annot.mk TokenKind.LParen (Loc.mk 0 1),
      Annot.mk (TokenKind.Number 3) (Loc.mk 1 2),
      Annot.mk TokenKind.RParen (Loc.mk 2 3)] = .ok (Ast.num 3 (Loc.mk 1 2)) ∧
    (Ast.num 3 (Loc.mk 1 2)).loc ≠ Loc.mk 0 3 :=
  ⟨by simp [lex, lexFrom, isDigitB, isSpaceB, digitsVal], rfl, by decide⟩

/-- Claim C3, amended: whenever the top-level parse succeeds it has
consumed the entire token stream (the root span, however, need not equal
the full input span — for `"(3)"` it is the inner span `(1,2)`). -/
theorem parse_ok_consumes_all (ts : List Token) (a : Ast)
    (h : parse ts = .ok a) :
    parse_expr (parseFuel ts) ts = .ok (a, []) := by
  unfold parse at h
  split at h
  · exact absurd h (by simp)
  next ret rest heq =>
    cases rest with
    | cons t rest2 => exact absurd h (by simp)
    | nil =>
      obtain rfl : ret = a := by injection h
      exact heq

/-- Witness for `parse_ok_consumes_all` at the one-token stream of `"7"`. -/
theorem parse_ok_consumes_all_witness :
    parse [Annot.mk (TokenKind.Number 7) (Loc.mk 0 1)] =
      .ok (Ast.num 7 (Loc.mk 0 1)) ∧
    parse_expr (parseFuel [Annot.mk (TokenKind.Number 7) (Loc.mk 0 1)])
      [Annot.mk (TokenKind.Number 7) (Loc.mk 0 1)] =
        .ok (Ast.num 7 (Loc.mk 0 1), []) :=
  ⟨rfl, parse_ok_consumes_all _ _ rfl⟩

/-- Claim C9: on an input whose leading maximal digit run has a value
exceeding `u64::MAX`, `lex_number`'s `parse().unwrap()` fails and the lexer
panics instead of returning a `LexError` or a truncated `Number` token. -/
theorem lex_number_overflow_panics (input : List Nat)
    (h : 2 ^ 64 ≤ digitsVal (input.takeWhile isDigitB)) :
    lex input = .error .panic := by
  cases input with
  | nil => simp [digitsVal] at h
  | cons b rest =>
    have hb : isDigitB b = true := by
      by_contra hb
      rw [List.takeWhile_cons_of_neg (by simpa using hb)] at h
      simp [digitsVal] at h
    rw [List.takeWhile_cons_of_pos hb] at h
    rw [lex]
    simp only [lexFrom, hb, if_true]
    rw [if_neg (Nat.not_lt.2 h)]

/-- Witness for `lex_number_overflow_panics` at twenty `9` characters. -/
theorem lex_number_overflow_panics_witness :
    2 ^ 64 ≤ digitsVal ((List.replicate 20 57).takeWhile isDigitB) ∧
    lex (List.replicate 20 57) = .error .panic :=
  ⟨by decide, lex_number_overflow_panics _ (by decide)⟩

/-- Recognizer for the `NotOperator` outcome of a whole parse. -/
def isNotOperatorErr : Except PFail Ast → Bool
  | .error (.perr (.NotOperator _)) => true
  | _ => false

/-- No layer of the recursive-descent parser ever returns the
`NotOperator` control signal: the operator recognizers produce it, but the
binary-tier loops consume it (breaking without consuming the token), so it
cannot propagate out of any subexpression parser.  Proved for every fuel by
induction. -/
theorem parser_components_no_NotOperator (fuel : Nat) :
    (∀ ts t, parse_atom fuel ts ≠ .error (.perr (.NotOperator t))) ∧
    (∀ ts t, parse_expr1 fuel ts ≠ .error (.perr (.NotOperator t))) ∧
    (∀ e ts t, parse_expr2_loop fuel e ts ≠ .error (.perr (.NotOperator t))) ∧
    (∀ ts t, parse_expr2 fuel ts ≠ .error (.perr (.NotOperator t))) ∧
    (∀ e ts t, parse_expr3_loop fuel e ts ≠ .error (.perr (.NotOperator t))) ∧
    (∀ ts t, parse_expr3 fuel ts ≠ .error (.perr (.NotOperator t))) := by
  induction fuel with
  | zero =>
    refine ⟨?_, ?_, ?_, ?_, ?_, ?_⟩ <;> intros <;>
      simp [parse_atom, parse_expr1, parse_expr2_loop, parse_expr2,
        parse_expr3_loop, parse_expr3]
  | succ fuel ih =>
    obtain ⟨iha, ih1, ih2l, ih2, ih3l, ih3⟩ := ih
    have hatom : ∀ ts t, parse_atom (fuel + 1) ts ≠ .error (.perr (.NotOperator t)) := by
      intro ts t h
      simp only [parse_atom] at h
      split at h
      · simp at h
      · split at h
        · simp at h
        · split at h
          · simp_all
          · split at h
            · simp at h
            · simp at h
            · simp at h
        · simp at h
    have h1 : ∀ ts t, parse_expr1 (fuel + 1) ts ≠ .error (.perr (.NotOperator t)) := by
      intro ts t h
      simp only [parse_expr1] at h
      split at h
      · split at h
        · split at h
          · simp_all
          · split at h
            · simp at h
            · simp at h
        · split at h
          · simp_all
          · split at h
            · simp at h
            · simp at h
        · exact iha _ _ h
      · exact iha _ _ h
    have h2l : ∀ e ts t,
        parse_expr2_loop (fuel + 1) e ts ≠ .error (.perr (.NotOperator t)) := by
      intro e ts t h
      simp only [parse_expr2_loop] at h
      split at h
      · simp at h
      · split at h
        · simp at h
        · split at h
          · simp_all
          · split at h
            · exact ih2l _ _ _ h
            · simp at h
    have h2 : ∀ ts t, parse_expr2 (fuel + 1) ts ≠ .error (.perr (.NotOperator t)) := by
      intro ts t h
      simp only [parse_expr2] at h
      split at h
      · simp_all
      · exact ih2l _ _ _ h
    have h3l : ∀ e ts t,
        parse_expr3_loop (fuel + 1) e ts ≠ .error (.perr (.NotOperator t)) := by
      intro e ts t h
      simp only [parse_expr3_loop] at h
      split at h
      · simp at h
      · split at h
        · simp at h
        · split at h
          · simp_all
          · split at h
            · exact ih3l _ _ _ h
            · simp at h
    have h3 : ∀ ts t, parse_expr3 (fuel + 1) ts ≠ .error (.perr (.NotOperator t)) := by
      intro ts t h
      simp only [parse_expr3] at h
      split at h
      · simp_all
      · exact ih3l _ _ _ h
    exact ⟨hatom, h1, h2l, h2, h3l, h3⟩

/-- The top-level `parse` never fails with `NotOperator`: its only own
error is `RedundantExpression`, and no subexpression parser lets the
control signal escape. -/
theorem parse_not_NotOperator_aux (ts : List Token) (t : Token) :
    parse ts ≠ .error (.perr (.NotOperator t)) := by
  intro h
  unfold parse at h
  split at h
  · next e heq =>
      injection h with h1
      subst h1
      unfold parse_expr at heq
      exact (parser_components_no_NotOperator (parseFuel ts)).2.2.2.2.2 ts t heq
  · split at h <;> simp_all

/-- Claim C5: for every token sequence, the outcome of the top-level parse
is never the `NotOperator` error — it is an internal control signal each
binary-tier loop consumes, never the outward-facing result. -/
theorem parse_result_never_NotOperator (ts : List Token) :
    isNotOperatorErr (parse ts) = false := by
  cases hp : parse ts with
  | ok a => rfl
  | error f =>
    cases f with
    | panic => rfl
    | fuelOut => rfl
    | perr e =>
      cases e with
      | NotOperator t => exact absurd hp (parse_not_NotOperator_aux ts t)
      | UnexpectedToken t => rfl
      | NotExpression t => rfl
      | UnclosedOpenParen t => rfl
      | RedundantExpression t => rfl
      | Eof => rfl

/-- Claim C8: `Loc::merge` is commutative in its result for spans meeting
the overlap-or-touch precondition, and merging a well-formed span with
itself returns that span unchanged. -/
theorem merge_comm_and_idem :
    (∀ a b : Loc, Loc.mergePre a b → Loc.merge a b = Loc.merge b a) ∧
    (∀ s : Loc, s.start ≤ s.stop → Loc.merge s s = some s) := by
  constructor
  · intro a b _
    unfold Loc.merge
    rw [Nat.max_comm b.start a.start, Nat.min_comm b.stop a.stop,
      Nat.min_comm b.start a.start, Nat.max_comm b.stop a.stop]
  · intro s h
    obtain ⟨a, b⟩ := s
    simp only [Loc.merge]
    simp_all

/-- Witness for `merge_comm_and_idem` at the touching spans `(0,2)`,
`(1,3)` and the span `(0,5)`. -/
theorem merge_comm_and_idem_witness :
    Loc.merge (Loc.mk 0 2) (Loc.mk 1 3) = Loc.merge (Loc.mk 1 3) (Loc.mk 0 2) ∧
    Loc.merge (Loc.mk 0 5) (Loc.mk 0 5) = some (Loc.mk 0 5) :=
  ⟨merge_comm_and_idem.1 (Loc.mk 0 2) (Loc.mk 1 3) (by decide),
    merge_comm_and_idem.2 (Loc.mk 0 5) (by decide)⟩

/-- Claim C10: evaluating a number literal applies the wrapping cast
`n as i64`, so every literal value `n` with `2^63 ≤ n < 2^64` evaluates to
the negative number `n - 2^64` rather than `n`. -/
theorem eval_num_wraps_to_negative (n : Nat) (loc : Loc)
    (h1 : 2 ^ 63 ≤ n) (h2 : n < 2 ^ 64) :
    eval (Ast.num n loc) = .ok ((n : Int) - 2 ^ 64) ∧ (n : Int) - 2 ^ 64 < 0 := by
  constructor
  · simp only [eval, u64_as_i64]
    rw [if_neg (Nat.not_lt.2 h1)]
  · have : (n : Int) < 2 ^ 64 := by exact_mod_cast h2
    omega

/-- Witness for `eval_num_wraps_to_negative` at `n = 2^63`. -/
theorem eval_num_wraps_to_negative_witness :
    eval (Ast.num (2 ^ 63) (Loc.mk 0 19)) = .ok (((2 ^ 63 : Nat) : Int) - 2 ^ 64) ∧
    ((2 ^ 63 : Nat) : Int) - 2 ^ 64 < 0 :=
  eval_num_wraps_to_negative (2 ^ 63) (Loc.mk 0 19) (le_refl _) (by norm_num)


theorem takeWhile_append_of_not (p : Nat → Bool) (l s : List Nat) (b : Nat)
    (hb : p b = false) : (l ++ b :: s).takeWhile p = l.takeWhile p := by
  induction l with
  | nil => simp [List.takeWhile_cons, hb]
  | cons a l ih =>
    cases ha : p a with
    | true => simp [List.takeWhile_cons, ha, ih]
    | false => simp [List.takeWhile_cons, ha]

theorem dropWhile_append_of_not (p : Nat → Bool) (l s : List Nat) (b : Nat)
    (hb : p b = false) : (l ++ b :: s).dropWhile p = l.dropWhile p ++ b :: s := by
  induction l with
  | nil => simp [List.dropWhile_cons, hb]
  | cons a l ih =>
    cases ha : p a with
    | true => simp [List.dropWhile_cons, ha, ih]
    | false => simp [List.dropWhile_cons, ha]

theorem smallRuns_tail (a : Nat) (l : List Nat)
    (h : ∀ i, digitsVal (((a :: l).drop i).takeWhile isDigitB) < 2 ^ 64) :
    ∀ i, digitsVal ((l.drop i).takeWhile isDigitB) < 2 ^ 64 := by
  intro i
  have := h (i + 1)
  simpa using this

theorem smallRuns_dropWhile (p : Nat → Bool) :
    ∀ l : List Nat, (∀ i, digitsVal ((l.drop i).takeWhile isDigitB) < 2 ^ 64) →
    ∀ i, digitsVal (((l.dropWhile p).drop i).takeWhile isDigitB) < 2 ^ 64 := by
  intro l
  induction l with
  | nil => intro h i; simpa using h i
  | cons a l ih =>
    intro h i
    cases ha : p a with
    | true =>
      have := ih (smallRuns_tail a l h) i
      simpa [List.dropWhile_cons, ha] using this
    | false =>
      have := h i
      simpa [List.dropWhile_cons, ha] using this

theorem invalid_not_digit (b : Nat) (h : validByte b = false) : isDigitB b = false := by
  simp only [validByte, Bool.or_eq_false_iff] at h
  tauto

theorem invalid_not_space (b : Nat) (h : validByte b = false) : isSpaceB b = false := by
  simp only [validByte, Bool.or_eq_false_iff] at h
  tauto

theorem lexFrom_invalid_head (b : Nat) (suf : List Nat) (pos : Nat)
    (hbad : validByte b = false) :
    lexFrom (b :: suf) pos =
      .error (.lerr (Annot.mk (LexErrorKind.invalidChar b) (Loc.mk pos (pos + 1)))) := by
  have h := hbad
  simp only [validByte, Bool.or_eq_false_iff] at h
  obtain ⟨⟨⟨⟨⟨⟨⟨hd, h43⟩, h45⟩, h42⟩, h47⟩, h40⟩, h41⟩, hs⟩ := h
  simp [lexFrom, hd, h43, h45, h42, h47, h40, h41, hs]

theorem lexFrom_first_invalid :
    ∀ (n : Nat) (pre : List Nat), pre.length ≤ n →
    ∀ (b : Nat) (suf : List Nat) (pos : Nat),
    (∀ x ∈ pre, validByte x = true) → validByte b = false →
    (∀ i, digitsVal ((pre.drop i).takeWhile isDigitB) < 2 ^ 64) →
    lexFrom (pre ++ b :: suf) pos =
      .error (.lerr (Annot.mk (LexErrorKind.invalidChar b)
        (Loc.mk (pos + pre.length) (pos + pre.length + 1)))) := by
  intro n
  induction n with
  | zero =>
    intro pre hlen b suf pos hval hbad hnum
    have hpre : pre = [] := List.length_eq_zero.mp (Nat.le_zero.mp hlen)
    subst hpre
    simpa using lexFrom_invalid_head b suf pos hbad
  | succ n ih =>
    intro pre hlen b suf pos hval hbad hnum
    match pre with
    | [] => simpa using lexFrom_invalid_head b suf pos hbad
    | a :: pre2 =>
      have hbd : isDigitB b = false := invalid_not_digit b hbad
      have hbs : isSpaceB b = false := invalid_not_space b hbad
      have hva : validByte a = true := hval a (List.mem_cons_self a pre2)
      have hvrest : ∀ x ∈ pre2, validByte x = true :=
        fun x hx => hval x (List.mem_cons_of_mem a hx)
      have hlen2 : pre2.length ≤ n := by
        have := hlen
        simp only [List.length_cons] at this
        omega
      simp only [validByte, Bool.or_eq_true, beq_iff_eq] at hva
      rcases hva with ⟨⟨⟨⟨⟨⟨hda | rfl⟩ | rfl⟩ | rfl⟩ | rfl⟩ | rfl⟩ | rfl⟩ | hsa
      · -- digit head
        have htw : (pre2 ++ b :: suf).takeWhile isDigitB = pre2.takeWhile isDigitB :=
          takeWhile_append_of_not _ _ _ _ hbd
        have hdw : (pre2 ++ b :: suf).dropWhile isDigitB = pre2.dropWhile isDigitB ++ b :: suf :=
          dropWhile_append_of_not _ _ _ _ hbd
        have hsmall : digitsVal (a :: pre2.takeWhile isDigitB) < 2 ^ 64 := by
          have := hnum 0
          simpa [List.takeWhile_cons, hda] using this
        have hrec := ih (pre2.dropWhile isDigitB)
          (le_trans (dropWhile_length_le _ _) hlen2) b suf
          (pos + (a :: pre2.takeWhile isDigitB).length)
          (fun x hx => hvrest x ((List.dropWhile_sublist _).mem hx))
          hbad (smallRuns_dropWhile isDigitB pre2 (smallRuns_tail a pre2 hnum))
        have harith : pos + (a :: pre2.takeWhile isDigitB).length +
            (pre2.dropWhile isDigitB).length = pos + (a :: pre2).length := by
          have hl := congrArg List.length (List.takeWhile_append_dropWhile isDigitB pre2)
          rw [List.length_append] at hl
          simp only [List.length_cons]
          omega
        rw [List.cons_append]
        simp only [lexFrom, hda, htw, hdw, if_true]
        rw [if_pos hsmall, hrec, harith]
      · -- a = 43
        have hrec := ih pre2 hlen2 b suf (pos + 1) hvrest hbad (smallRuns_tail _ pre2 hnum)
        have harith : pos + 1 + pre2.length = pos + ((43 : Nat) :: pre2).length := by
          simp only [List.length_cons]; omega
        rw [List.cons_append]
        simp only [lexFrom]
        norm_num [isDigitB]
        rw [hrec, harith]
        simp [List.length_cons]
      · -- a = 45
        have hrec := ih pre2 hlen2 b suf (pos + 1) hvrest hbad (smallRuns_tail _ pre2 hnum)
        have harith : pos + 1 + pre2.length = pos + ((45 : Nat) :: pre2).length := by
          simp only [List.length_cons]; omega
        rw [List.cons_append]
        simp only [lexFrom]
        norm_num [isDigitB]
        rw [hrec, harith]
        simp [List.length_cons]
      · -- a = 42
        have hrec := ih pre2 hlen2 b suf (pos + 1) hvrest hbad (smallRuns_tail _ pre2 hnum)
        have harith : pos + 1 + pre2.length = pos + ((42 : Nat) :: pre2).length := by
          simp only [List.length_cons]; omega
        rw [List.cons_append]
        simp only [lexFrom]
        norm_num [isDigitB]
        rw [hrec, harith]
        simp [List.length_cons]
      · -- a = 47
        have hrec := ih pre2 hlen2 b suf (pos + 1) hvrest hbad (smallRuns_tail _ pre2 hnum)
        have harith : pos + 1 + pre2.length = pos + ((47 : Nat) :: pre2).length := by
          simp only [List.length_cons]; omega
        rw [List.cons_append]
        simp only [lexFrom]
        norm_num [isDigitB]
        rw [hrec, harith]
        simp [List.length_cons]
      · -- a = 40
        have hrec := ih pre2 hlen2 b suf (pos + 1) hvrest hbad (smallRuns_tail _ pre2 hnum)
        have harith : pos + 1 + pre2.length = pos + ((40 : Nat) :: pre2).length := by
          simp only [List.length_cons]; omega
        rw [List.cons_append]
        simp only [lexFrom]
        norm_num [isDigitB]
        rw [hrec, harith]
        simp [List.length_cons]
      · -- a = 41
        have hrec := ih pre2 hlen2 b suf (pos + 1) hvrest hbad (smallRuns_tail _ pre2 hnum)
        have harith : pos + 1 + pre2.length = pos + ((41 : Nat) :: pre2).length := by
          simp only [List.length_cons]; omega
        rw [List.cons_append]
        simp only [lexFrom]
        norm_num [isDigitB]
        rw [hrec, harith]
        simp [List.length_cons]
      · -- space head
        have hfacts : isDigitB a = false ∧ a ≠ 43 ∧ a ≠ 45 ∧ a ≠ 42 ∧ a ≠ 47 ∧
            a ≠ 40 ∧ a ≠ 41 := by
          simp only [isSpaceB, Bool.or_eq_true, beq_iff_eq] at hsa
          rcases hsa with (rfl | rfl) | rfl <;>
            exact ⟨by decide, by decide, by decide, by decide, by decide, by decide, by decide⟩
        obtain ⟨hda, f43, f45, f42, f47, f40, f41⟩ := hfacts
        have hsa2 : isSpaceB a = true := by
          simp only [isSpaceB, Bool.or_eq_true, beq_iff_eq] at hsa ⊢
          exact hsa
        have htw : (pre2 ++ b :: suf).takeWhile isSpaceB = pre2.takeWhile isSpaceB :=
          takeWhile_append_of_not _ _ _ _ hbs
        have hdw : (pre2 ++ b :: suf).dropWhile isSpaceB = pre2.dropWhile isSpaceB ++ b :: suf :=
          dropWhile_append_of_not _ _ _ _ hbs
        have hrec := ih (pre2.dropWhile isSpaceB)
          (le_trans (dropWhile_length_le _ _) hlen2) b suf
          (pos + 1 + (pre2.takeWhile isSpaceB).length)
          (fun x hx => hvrest x ((List.dropWhile_sublist _).mem hx))
          hbad (smallRuns_dropWhile isSpaceB pre2 (smallRuns_tail a pre2 hnum))
        have harith : pos + 1 + (pre2.takeWhile isSpaceB).length +
            (pre2.dropWhile isSpaceB).length = pos + (a :: pre2).length := by
          have hl := congrArg List.length (List.takeWhile_append_dropWhile isSpaceB pre2)
          rw [List.length_append] at hl
          simp only [List.length_cons]
          omega
        rw [List.cons_append]
        simp only [lexFrom, hda, hsa2, htw, hdw, beq_iff_eq, if_true]
        rw [hrec, harith]
        simp [f43, f45, f42, f47, f40, f41]


/-- Claim C7, counterexample: the claim promises `InvalidChar` at the first
non-(digit/punctuation/whitespace) byte for every input, but a `u64`
overflow in an earlier digit run preempts it: for twenty `9`s followed by
`@` (byte 64, the first invalid byte, at offset 20), lexing panics in
`lex_number` instead of returning `InvalidChar('@')` at `(20, 21)`. -/
theorem lex_overflow_prefix_no_invalidChar :
    (List.replicate 20 57).all validByte = true ∧
    validByte 64 = false ∧
    lex (List.replicate 20 57 ++ [64]) = .error .panic := by
  refine ⟨by decide, by decide, ?_⟩
  simp [lex, lexFrom, isDigitB, isSpaceB, digitsVal, List.replicate]

/-- Claim C7, amended: if the first byte that is neither an ASCII digit,
nor one of `+ - * / ( )`, nor space/tab/newline occurs at offset `p`, and
every digit run before `p` has a value within `u64` range, then lexing
fails with `InvalidChar` on that byte with the one-byte span `(p, p + 1)`
(and, the result being an error, no token list is returned). -/
theorem lex_fails_at_first_invalid_byte (pre : List Nat) (b : Nat) (suf : List Nat)
    (hval : ∀ x ∈ pre, validByte x = true)
    (hbad : validByte b = false)
    (hnum : ∀ i, i ≤ pre.length → digitsVal ((pre.drop i).takeWhile isDigitB) < 2 ^ 64) :
    lex (pre ++ b :: suf) =
      .error (.lerr (Annot.mk (LexErrorKind.invalidChar b)
        (Loc.mk pre.length (pre.length + 1)))) := by
  have hnum2 : ∀ i, digitsVal ((pre.drop i).takeWhile isDigitB) < 2 ^ 64 := by
    intro i
    by_cases hi : i ≤ pre.length
    · exact hnum i hi
    · rw [List.drop_eq_nil_of_le (by omega)]
      simp [digitsVal]
  have h := lexFrom_first_invalid pre.length pre (le_refl _) b suf 0 hval hbad hnum2
  simpa [lex] using h

/-- Witness for `lex_fails_at_first_invalid_byte` on the input `"1 @"`:
the first invalid byte `@` (64) sits at offset 2. -/
theorem lex_fails_at_first_invalid_byte_witness :
    (∀ x ∈ ([49, 32] : List Nat), validByte x = true) ∧ validByte 64 = false ∧
    (∀ i, i ≤ ([49, 32] : List Nat).length →
      digitsVal ((([49, 32] : List Nat).drop i).takeWhile isDigitB) < 2 ^ 64) ∧
    lex [49, 32, 64] =
      .error (.lerr (Annot.mk (LexErrorKind.invalidChar 64) (Loc.mk 2 3))) := by
  refine ⟨by decide, by decide, by decide, ?_⟩
  have h := lex_fails_at_first_invalid_byte [49, 32] 64 [] (by decide) (by decide) (by decide)
  simpa using h

end Myparse
